import Mathlib

set_option maxRecDepth 8192

/-!
Verification of the db_tutorial storage engine.

The repository's binary is built from `src/main.rs` alone (it declares no
modules), giving a flat "rows packed into pages" engine: a pager caching
4096-byte pages over a heap file, 291-byte rows at fixed offsets, an
insert/select execution engine, and a flush-on-drop persistence path.
The remaining files (`pager.rs`, `table.rs`, `btree.rs`, `virtual_machine.rs`)
are an in-progress single-leaf B-tree evolution; the leaf-node view and the
cursor over it are embedded separately below.

Bytes are modelled as natural numbers.  Page buffers owned by the pager are
functions from offsets to bytes; buffers of known extent (rows, cells) are
lists.  File I/O errors are not modelled: in the embedding the corresponding
`Result` paths are the `ok` branches, keeping the source's error types.
-/

/-- Overwrite the bytes `[off, off + bs.length)` of a function-backed buffer.
Models a `write_all` of `bs` into a mutable slice starting at `off`. -/
def writeRange (f : Nat → Nat) (off : Nat) (bs : List Nat) : Nat → Nat :=
  fun i => if off ≤ i ∧ i < off + bs.length then bs.getD (i - off) 0 else f i

/-- Read `len` bytes starting at `off` out of a function-backed buffer. -/
def readRange (f : Nat → Nat) (off len : Nat) : List Nat :=
  (List.range len).map fun j => f (off + j)

/-- Overwrite the bytes `[off, off + bs.length)` of a list-backed buffer.
Models a `write_all` of `bs` into `buf[off..off + bs.len()]`. -/
def writeAt (buf : List Nat) (off : Nat) (bs : List Nat) : List Nat :=
  buf.take off ++ bs ++ buf.drop (off + bs.length)

/-- Right-pad a byte list with zeros up to width `n`. -/
def padTo (n : Nat) (l : List Nat) : List Nat :=
  l ++ List.replicate (n - l.length) 0

/-- Big-endian bytes of a `u32`, as in `u32::to_be_bytes`. -/
def u32ToBeBytes (x : Nat) : List Nat :=
  [x / 16777216 % 256, x / 65536 % 256, x / 256 % 256, x % 256]

/-- Little-endian bytes of a `u32`, as in `u32::to_le_bytes`. -/
def u32ToLeBytes (x : Nat) : List Nat :=
  [x % 256, x / 256 % 256, x / 65536 % 256, x / 16777216 % 256]

/-- `u32::from_be_bytes` on a 4-byte list (0 on any other shape). -/
def u32FromBeBytes : List Nat → Nat
  | [a, b, c, d] => ((a * 256 + b) * 256 + c) * 256 + d
  | _ => 0

/-- `u32::from_le_bytes` on a 4-byte list (0 on any other shape). -/
def u32FromLeBytes : List Nat → Nat
  | [a, b, c, d] => ((d * 256 + c) * 256 + b) * 256 + a
  | _ => 0

/-- Strip NUL bytes from both ends, as `str::trim_matches(char::from(0))`
does when the REPL displays a username or email. -/
def trimZeros (l : List Nat) : List Nat :=
  ((l.reverse.dropWhile fun b => b == 0).reverse).dropWhile fun b => b == 0

theorem readRange_length (f : Nat → Nat) (off len : Nat) :
    (readRange f off len).length = len := by
  simp [readRange]

theorem readRange_getD (f : Nat → Nat) (off len j : Nat) (h : j < len) :
    (readRange f off len).getD j 0 = f (off + j) := by
  simp [readRange, List.getD_eq_getElem?_getD, List.getElem?_map,
    List.getElem?_range h]

theorem readRange_writeRange_self (f : Nat → Nat) (off : Nat) (bs : List Nat) :
    readRange (writeRange f off bs) off bs.length = bs := by
  apply List.ext_getElem (by simp [readRange])
  intro i h1 h2
  have hi : i < bs.length := h2
  simp only [readRange, List.getElem_map, List.getElem_range]
  unfold writeRange
  rw [if_pos ⟨Nat.le_add_right _ _, by omega⟩, Nat.add_sub_cancel_left,
    List.getD_eq_getElem bs 0 hi]

theorem readRange_writeRange_of_disjoint (f : Nat → Nat) (off len off' : Nat)
    (bs : List Nat) (h : off + len ≤ off' ∨ off' + bs.length ≤ off) :
    readRange (writeRange f off' bs) off len = readRange f off len := by
  apply List.ext_getElem (by simp [readRange])
  intro i h1 h2
  have hi : i < len := by simpa [readRange] using h1
  simp only [readRange, List.getElem_map, List.getElem_range]
  unfold writeRange
  rw [if_neg]
  omega

theorem u32_be_roundtrip (x : Nat) (h : x < 4294967296) :
    u32FromBeBytes (u32ToBeBytes x) = x := by
  simp only [u32ToBeBytes, u32FromBeBytes]
  omega

theorem u32_le_roundtrip (x : Nat) (h : x < 4294967296) :
    u32FromLeBytes (u32ToLeBytes x) = x := by
  simp only [u32ToLeBytes, u32FromLeBytes]
  omega

theorem padTo_length (n : Nat) (l : List Nat) (h : l.length ≤ n) :
    (padTo n l).length = n := by
  simp [padTo]
  omega

theorem dropWhile_zeros_replicate (k : Nat) (l : List Nat) :
    List.dropWhile (fun b => b == 0) (List.replicate k 0 ++ l)
      = List.dropWhile (fun b => b == 0) l := by
  induction k with
  | zero => simp
  | succ k ih => simp [List.replicate_succ, List.dropWhile, ih]

theorem trimZeros_padTo (n : Nat) (l : List Nat) :
    trimZeros (padTo n l) = trimZeros l := by
  unfold trimZeros padTo
  rw [List.reverse_append, List.reverse_replicate, dropWhile_zeros_replicate]

/-! The flat-pages engine of `src/main.rs`: the code the repository's binary
is built from.  Rows are 291 bytes, packed 14 to a 4096-byte page; the pager
caches pages in a map and reads missing ones from the backing file,
tolerating a short read (the unread suffix of the buffer stays zero). -/

namespace MainDb

def ID_SIZE : Nat := 4
def USERNAME_SIZE : Nat := 32
def EMAIL_SIZE : Nat := 255
def ROW_SIZE : Nat := ID_SIZE + USERNAME_SIZE + EMAIL_SIZE
def ID_OFFSET : Nat := 0
def USERNAME_OFFSET : Nat := ID_OFFSET + ID_SIZE
def EMAIL_OFFSET : Nat := USERNAME_OFFSET + USERNAME_SIZE
def MAX_PAGES : Nat := 100
def PAGE_SIZE : Nat := 4096
def ROWS_PER_PAGE : Nat := PAGE_SIZE / ROW_SIZE
def TABLE_MAX_ROWS : Nat := ROWS_PER_PAGE * MAX_PAGES

/-- A parsed row: `Row { id: u32, username: &[u8], email: &[u8] }`. -/
structure Row where
  id : Nat
  username : List Nat
  email : List Nat
deriving DecidableEq

/-- An owned result row as returned by `select`. -/
structure ResultRow where
  id : Nat
  username : List Nat
  email : List Nat
deriving DecidableEq

inductive Statement
  | Insert (row : Row)
  | Select

inductive StatementError
  | Sql
  | TooLong
  | InvalidId
deriving DecidableEq

inductive PagerError
  | File
  | PagesFull
deriving DecidableEq

inductive TableError
  | Pager (e : PagerError)
deriving DecidableEq

inductive ExecuteError
  | RowRead
  | Write
  | TableFull
  | Table (e : TableError)
deriving DecidableEq

inductive ReplResult
  | Rows (rows : List ResultRow)
  | Success
deriving DecidableEq

/-- A legal row: `id` fits in a `u32` and both variable fields are within
their fixed widths (the parser rejects anything longer with `TooLong`). -/
abbrev LegalRow (r : Row) : Prop :=
  r.id < 4294967296 ∧ r.username.length ≤ USERNAME_SIZE ∧ r.email.length ≤ EMAIL_SIZE

/-- Common body of the two `serialize_row` functions in the source: write the
(already encoded) id bytes at offset 0 of a zeroed 291-byte buffer, the
username at offset 4 followed by an explicit zero fill up to 32 bytes, and
the email at offset 36 followed by a zero fill up to 255 bytes.  The
`num_un_bytes` / `num_email_bytes` computation is the source's. -/
def serializeCore (ibytes ubytes ebytes : List Nat) : List Nat :=
  let buf := List.replicate ROW_SIZE 0
  let buf := writeAt buf 0 ibytes
  let num_un_bytes := if USERNAME_SIZE > ubytes.length then USERNAME_SIZE else ubytes.length
  let num_email_bytes := if EMAIL_SIZE > ebytes.length then EMAIL_SIZE else ebytes.length
  let buf := writeAt buf USERNAME_OFFSET ubytes
  let buf :=
    if USERNAME_SIZE - num_un_bytes > 0 then
      writeAt buf (USERNAME_OFFSET + num_un_bytes)
        (List.replicate (USERNAME_SIZE - num_un_bytes) 0)
    else buf
  let buf := writeAt buf EMAIL_OFFSET ebytes
  let buf :=
    if EMAIL_SIZE - num_email_bytes > 0 then
      writeAt buf (EMAIL_OFFSET + num_email_bytes)
        (List.replicate (EMAIL_SIZE - num_email_bytes) 0)
    else buf
  buf

/-- `serialize_row` of `src/main.rs`: note the id goes through
`u32::to_be_bytes` (big-endian) on this path. -/
def serialize_row (row : Row) : List Nat :=
  serializeCore (u32ToBeBytes row.id) row.username row.email

/-- `serialize_row` of `src/virtual_machine.rs`: identical except the id goes
through `u32::to_le_bytes` (little-endian). -/
def vm_serialize_row (row : Row) : List Nat :=
  serializeCore (u32ToLeBytes row.id) row.username row.email

/-- `deserialize_row` of `src/main.rs`: big-endian id from bytes `[0, 4)`,
username slice `[4, 36)`, email slice `[36, 291)`. -/
def deserialize_row (buf : List Nat) : Row :=
  { id := u32FromBeBytes (buf.take USERNAME_OFFSET)
    username := (buf.drop USERNAME_OFFSET).take USERNAME_SIZE
    email := (buf.drop EMAIL_OFFSET).take EMAIL_SIZE }

/-- The owned copy the select loop pushes for each deserialized row. -/
def toResultRow (r : Row) : ResultRow :=
  { id := r.id, username := r.username, email := r.email }

/-- What a legal row looks like once stored (and hence once selected):
id intact, username and email zero-padded to their fixed widths. -/
def storedRow (r : Row) : ResultRow :=
  { id := r.id
    username := padTo USERNAME_SIZE r.username
    email := padTo EMAIL_SIZE r.email }

/-- How the REPL displays a result row: trailing (and leading) NUL bytes of
both string fields are trimmed. -/
def displayRow (rr : ResultRow) : Nat × List Nat × List Nat :=
  (rr.id, trimZeros rr.username, trimZeros rr.email)

/-- The backing heap file: a length in bytes and the byte at each offset. -/
structure DbFile where
  length : Nat
  content : Nat → Nat

/-- The pager: the backing file, plus the page cache (`cached` says which
page numbers are present, `pages` holds their buffers). -/
structure Pager where
  file_length : Nat
  file : Nat → Nat
  cached : Nat → Bool
  pages : Nat → Nat → Nat

/-- `Pager::new`: open the file, seek to the end to learn its length, start
with an empty cache.  Note: no validation of the length is performed — in
particular there is no check that it is a multiple of `PAGE_SIZE`, and
`PagerError` has no corrupt-file variant.  Only file I/O can fail. -/
def Pager.new (f : DbFile) : Except PagerError Pager :=
  .ok { file_length := f.length, file := f.content
        cached := fun _ => false, pages := fun _ _ => 0 }

/-- The page count the pager believes the file holds, rounding a trailing
partial page up (`total_num_pages_in_file_now` in `get_page`). -/
def totalPagesOnDisk (pg : Pager) : Nat :=
  if pg.file_length % PAGE_SIZE > 0 then pg.file_length / PAGE_SIZE + 1
  else pg.file_length / PAGE_SIZE

/-- `Pager::get_page`: reject page numbers above `MAX_PAGES`; on a cache hit
return the pager unchanged; on a miss allocate a zero page, fill its prefix
from the file when the page number is within the file (a short read leaves
the suffix zero), and cache it. -/
def get_page (pg : Pager) (page_num : Nat) : Except PagerError Pager :=
  if page_num > MAX_PAGES then .error .PagesFull
  else if pg.cached page_num then .ok pg
  else
    let buf : Nat → Nat :=
      if page_num ≤ totalPagesOnDisk pg then
        fun i => if page_num * PAGE_SIZE + i < pg.file_length
                 then pg.file (page_num * PAGE_SIZE + i) else 0
      else fun _ => 0
    .ok { pg with
          cached := fun q => if q = page_num then true else pg.cached q
          pages := fun q => if q = page_num then buf else pg.pages q }

/-- The bytes `get_page` would produce for page `p` straight from the file:
the file's bytes where the file extends, zero beyond its end. -/
def fileSlice (pg : Pager) (p : Nat) : Nat → Nat :=
  fun o => if p * PAGE_SIZE + o < pg.file_length then pg.file (p * PAGE_SIZE + o) else 0

/-- The de-facto contents of page `p`: the cached buffer if present,
otherwise what loading it from the file would yield. -/
def pageView (pg : Pager) (p : Nat) : Nat → Nat :=
  if pg.cached p then pg.pages p else fileSlice pg p

/-- The table of `src/main.rs`: an explicit row counter over the pager. -/
structure Table where
  num_rows : Nat
  pager : Pager

/-- `Table::new`: build a pager and derive the row count from the file
length (`file_length / ROW_SIZE`). -/
def Table.new (f : DbFile) : Except TableError Table :=
  match Pager.new f with
  | .error e => .error (.Pager e)
  | .ok pager => .ok { num_rows := f.length / ROW_SIZE, pager := pager }

/-- A table over a fresh (empty) backing file. -/
def emptyTable : Table :=
  { num_rows := 0
    pager := { file_length := 0, file := fun _ => 0
               cached := fun _ => false, pages := fun _ _ => 0 } }

/-- Row slot `i` as the table's helpers address it: page `i / 14`, byte
offset `(i % 14) * 291`, read through the current page contents. -/
def rowSlotV (pg : Pager) (i : Nat) : List Nat :=
  readRange (pageView pg (i / ROWS_PER_PAGE)) (i % ROWS_PER_PAGE * ROW_SIZE) ROW_SIZE

/-- The `Statement::Insert` arm of `Table::execute_statement`: fail with
`TableFull` at capacity, otherwise serialize the row, obtain the row's slot
through the pager and write the bytes, then bump `num_rows`.  The returned
table is the (possibly mutated) `&mut self`; on the error paths the source
leaves the table as it was. -/
def execute_insert (t : Table) (row : Row) : Table × Except ExecuteError ReplResult :=
  if t.num_rows = TABLE_MAX_ROWS then (t, .error .TableFull)
  else
    let bytes := serialize_row row
    let page_num := t.num_rows / ROWS_PER_PAGE
    let byte_offset := t.num_rows % ROWS_PER_PAGE * ROW_SIZE
    match get_page t.pager page_num with
    | .error e => (t, .error (.Table (.Pager e)))
    | .ok pg' =>
      if ROW_SIZE < bytes.length then (t, .error .Write)
      else
        ({ num_rows := t.num_rows + 1
           pager :=
             { pg' with
               pages := fun q =>
                 if q = page_num then writeRange (pg'.pages page_num) byte_offset bytes
                 else pg'.pages q } },
         .ok .Success)

/-- The body of the `Statement::Select` arm: for each row index fetch its
page (mutating the cache), check the 291-byte slice converts to a sized
buffer, deserialize, and push an owned copy. -/
def select_loop (t : Table) : List Nat → Table × Except ExecuteError (List ResultRow)
  | [] => (t, .ok [])
  | i :: rest =>
    let page_num := i / ROWS_PER_PAGE
    let byte_offset := i % ROWS_PER_PAGE * ROW_SIZE
    match get_page t.pager page_num with
    | .error e => (t, .error (.Table (.Pager e)))
    | .ok pg' =>
      let row_buffer := readRange (pg'.pages page_num) byte_offset ROW_SIZE
      if row_buffer.length = ROW_SIZE then
        match select_loop { t with pager := pg' } rest with
        | (t', .ok rs) => (t', .ok (toResultRow (deserialize_row row_buffer) :: rs))
        | (t', .error e) => (t', .error e)
      else ({ t with pager := pg' }, .error .RowRead)

/-- `Table::execute_statement`. -/
def execute_statement (t : Table) (s : Statement) : Table × Except ExecuteError ReplResult :=
  match s with
  | .Insert row => execute_insert t row
  | .Select =>
    match select_loop t (List.range t.num_rows) with
    | (t', .ok rows) => (t', .ok (.Rows rows))
    | (t', .error e) => (t', .error e)

/-- Run a sequence of insert statements, stopping at the first error. -/
def insertAll (t : Table) : List Row → Table × Except ExecuteError Unit
  | [] => (t, .ok ())
  | r :: rest =>
    match execute_statement t (.Insert r) with
    | (t', .ok _) => insertAll t' rest
    | (t', .error e) => (t', .error e)

end MainDb

namespace MainDb

theorem ROW_SIZE_eq : ROW_SIZE = 291 := rfl

theorem ROWS_PER_PAGE_eq : ROWS_PER_PAGE = 14 := rfl

theorem TABLE_MAX_ROWS_eq : TABLE_MAX_ROWS = 1400 := rfl

theorem PAGE_SIZE_eq : PAGE_SIZE = 4096 := rfl

theorem MAX_PAGES_eq : MAX_PAGES = 100 := rfl

/-- Writing at the boundary between a prefix `a` and a suffix `b` replaces
the front of `b`. -/
theorem writeAt_at_append (a b bs : List Nat) :
    writeAt (a ++ b) a.length bs = a ++ (bs ++ b.drop bs.length) := by
  unfold writeAt
  rw [List.take_append_eq_append_take, List.drop_append_eq_append_drop]
  simp [List.drop_eq_nil_of_le, Nat.add_sub_cancel_left]

/-- For in-range fields the imperative buffer-filling of `serialize_row`
produces id bytes, zero-padded username, zero-padded email, in order. -/
theorem serializeCore_spec (ib ub eb : List Nat) (hib : ib.length = 4)
    (hu : ub.length ≤ 32) (he : eb.length ≤ 255) :
    serializeCore ib ub eb = ib ++ (padTo 32 ub ++ padTo 255 eb) := by
  have hnu : (if USERNAME_SIZE > ub.length then USERNAME_SIZE else ub.length)
      = USERNAME_SIZE := by
    unfold USERNAME_SIZE
    split <;> omega
  have hne : (if EMAIL_SIZE > eb.length then EMAIL_SIZE else eb.length)
      = EMAIL_SIZE := by
    unfold EMAIL_SIZE
    split <;> omega
  have e1 : writeAt (List.replicate ROW_SIZE 0) 0 ib = ib ++ List.replicate 287 0 := by
    have h := writeAt_at_append [] (List.replicate ROW_SIZE 0) ib
    rw [List.nil_append, List.nil_append, List.length_nil, hib, List.drop_replicate] at h
    rw [h, show ROW_SIZE - 4 = 287 from rfl]
  have e2 : writeAt (ib ++ List.replicate 287 0) USERNAME_OFFSET ub
      = ib ++ (ub ++ List.replicate (287 - ub.length) 0) := by
    have h := writeAt_at_append ib (List.replicate 287 0) ub
    rw [hib, List.drop_replicate] at h
    exact h
  have hsplit : List.replicate (287 - ub.length) (0 : Nat)
      = List.replicate (32 - ub.length) 0 ++ List.replicate 255 0 := by
    rw [← List.replicate_add]
    congr 1
    omega
  have e3 : writeAt (ib ++ (ub ++ List.replicate (287 - ub.length) 0)) EMAIL_OFFSET eb
      = ib ++ (padTo 32 ub ++ padTo 255 eb) := by
    rw [hsplit, show ib ++ (ub ++ (List.replicate (32 - ub.length) 0 ++ List.replicate 255 0))
        = (ib ++ ub ++ List.replicate (32 - ub.length) 0) ++ List.replicate 255 0 by
      simp only [List.append_assoc]]
    have ha : (ib ++ ub ++ List.replicate (32 - ub.length) 0).length = EMAIL_OFFSET := by
      simp only [List.length_append, List.length_replicate, hib, EMAIL_OFFSET,
        USERNAME_OFFSET, ID_OFFSET, ID_SIZE, USERNAME_SIZE]
      omega
    have h := writeAt_at_append (ib ++ ub ++ List.replicate (32 - ub.length) 0)
      (List.replicate 255 0) eb
    rw [ha] at h
    rw [h, List.drop_replicate]
    simp only [padTo, List.append_assoc]
  calc serializeCore ib ub eb
      = writeAt (ib ++ (ub ++ List.replicate (287 - ub.length) 0)) EMAIL_OFFSET eb := by
        simp only [serializeCore, hnu, hne, Nat.sub_self, gt_iff_lt, Nat.lt_irrefl,
          if_false, e1, e2]
    _ = ib ++ (padTo 32 ub ++ padTo 255 eb) := e3

theorem serialize_row_spec (r : Row) (h : LegalRow r) :
    serialize_row r = u32ToBeBytes r.id ++ (padTo 32 r.username ++ padTo 255 r.email) := by
  exact serializeCore_spec _ _ _ (by simp [u32ToBeBytes]) h.2.1 h.2.2

theorem vm_serialize_row_spec (r : Row) (h : LegalRow r) :
    vm_serialize_row r = u32ToLeBytes r.id ++ (padTo 32 r.username ++ padTo 255 r.email) := by
  exact serializeCore_spec _ _ _ (by simp [u32ToLeBytes]) h.2.1 h.2.2

theorem serialize_row_length (r : Row) (h : LegalRow r) :
    (serialize_row r).length = 291 := by
  rw [serialize_row_spec r h]
  have h1 : r.username.length ≤ 32 := h.2.1
  have h2 : r.email.length ≤ 255 := h.2.2
  simp [u32ToBeBytes, padTo_length _ _ h1, padTo_length _ _ h2]

/-- Serialize-then-deserialize gives the row back with its string fields
zero-padded to their fixed widths. -/
theorem deserialize_serialize (r : Row) (h : LegalRow r) :
    deserialize_row (serialize_row r)
      = { id := r.id, username := padTo 32 r.username, email := padTo 255 r.email } := by
  rw [serialize_row_spec r h]
  have hib : (u32ToBeBytes r.id).length = 4 := by simp [u32ToBeBytes]
  have hpu : (padTo 32 r.username).length = 32 := padTo_length _ _ h.2.1
  have hpe : (padTo 255 r.email).length = 255 := padTo_length _ _ h.2.2
  unfold deserialize_row
  congr 1
  · rw [show USERNAME_OFFSET = (u32ToBeBytes r.id).length by rw [hib]; rfl,
      List.take_left]
    exact u32_be_roundtrip r.id h.1
  · rw [show USERNAME_OFFSET = (u32ToBeBytes r.id).length by rw [hib]; rfl,
      List.drop_left]
    rw [show USERNAME_SIZE = (padTo 32 r.username).length by rw [hpu]; rfl,
      List.take_left]
  · rw [show EMAIL_OFFSET
        = (u32ToBeBytes r.id ++ padTo 32 r.username).length by
      simp only [List.length_append, hib, hpu]; rfl]
    rw [show u32ToBeBytes r.id ++ (padTo 32 r.username ++ padTo 255 r.email)
        = (u32ToBeBytes r.id ++ padTo 32 r.username) ++ padTo 255 r.email by
      simp [List.append_assoc]]
    rw [List.drop_left]
    exact List.take_of_length_le (by rw [hpe]; exact Nat.le_refl 255)

end MainDb

namespace MainDb

/-- Pages past the file's extent read as all zeros. -/
theorem fileSlice_eq_zero_of_far (pg : Pager) (p : Nat) (hp : totalPagesOnDisk pg < p) :
    fileSlice pg p = fun _ => 0 := by
  funext o
  unfold fileSlice
  unfold totalPagesOnDisk at hp
  simp only [PAGE_SIZE] at hp ⊢
  have hno : ¬ (p * 4096 + o < pg.file_length) := by
    have hd := Nat.div_add_mod pg.file_length 4096
    have hm : pg.file_length % 4096 < 4096 := Nat.mod_lt _ (by omega)
    split at hp <;> omega
  rw [if_neg hno]

/-- `get_page` on an in-range page number succeeds, leaves the file and every
page's effective contents unchanged, and afterwards holds the requested page
in its cache with exactly those contents. -/
theorem get_page_spec (pg : Pager) (p : Nat) (hp : p ≤ MAX_PAGES) :
    ∃ pg', get_page pg p = .ok pg' ∧
      pg'.file_length = pg.file_length ∧
      pg'.file = pg.file ∧
      pg'.cached p = true ∧
      pg'.pages p = pageView pg p ∧
      (∀ q, pageView pg' q = pageView pg q) ∧
      (∀ q, pg'.cached q = true ↔ (q = p ∨ pg.cached q = true)) := by
  unfold get_page
  rw [if_neg (by omega : ¬ p > MAX_PAGES)]
  by_cases hc : pg.cached p = true
  · rw [if_pos hc]
    refine ⟨pg, rfl, rfl, rfl, hc, ?_, fun q => rfl, fun q => ?_⟩
    · unfold pageView
      rw [if_pos hc]
    · constructor
      · exact fun h => Or.inr h
      · rintro (rfl | h)
        · exact hc
        · exact h
  · rw [if_neg hc]
    have hbuf : (if p ≤ totalPagesOnDisk pg then
          (fun i => if p * PAGE_SIZE + i < pg.file_length then pg.file (p * PAGE_SIZE + i) else 0)
        else fun _ => 0) = fileSlice pg p := by
      by_cases ht : p ≤ totalPagesOnDisk pg
      · rw [if_pos ht]
        rfl
      · rw [if_neg ht, fileSlice_eq_zero_of_far pg p (by omega)]
    refine ⟨_, rfl, rfl, rfl, ?_, ?_, ?_, ?_⟩
    · simp
    · show (if p = p then _ else _) = _
      rw [if_pos rfl, hbuf]
      unfold pageView
      rw [if_neg hc]
    · intro q
      by_cases hq : q = p
      · subst hq
        unfold pageView
        simp [hc, hbuf]
      · unfold pageView fileSlice
        simp only [if_neg hq]
    · intro q
      by_cases hq : q = p
      · subst hq
        simp
      · simp [hq]

end MainDb

namespace MainDb

theorem getD_concat_length (l : List Row) (a d : Row) :
    (l ++ [a]).getD l.length d = a := by
  simp [List.getD_eq_getElem?_getD, List.getElem?_concat_length]

theorem getD_concat_lt (l : List Row) (a d : Row) (i : Nat) (h : i < l.length) :
    (l ++ [a]).getD i d = l.getD i d := by
  simp [List.getD_eq_getElem?_getD, List.getElem?_append, h]

/-- Representation invariant: a table reached by inserting `rs` into a table
over an empty file holds `rs.length` as its row count, caches exactly the
pages that contain rows, and row slot `i` holds the serialization of `rs[i]`. -/
structure TableRep (rs : List Row) (t : Table) : Prop where
  nrows : t.num_rows = rs.length
  flen : t.pager.file_length = 0
  cached_iff : ∀ p, t.pager.cached p = true ↔ 14 * p < rs.length
  rows : ∀ i, i < rs.length → rowSlotV t.pager i = serialize_row (rs.getD i ⟨0, [], []⟩)

theorem emptyTable_rep : TableRep [] emptyTable := by
  refine ⟨rfl, rfl, fun p => ?_, fun i h => absurd h (Nat.not_lt_zero i)⟩
  constructor
  · intro h
    simp [emptyTable] at h
  · intro h
    simp at h

theorem rowSlotV_congr (pg pg' : Pager) (h : ∀ q, pageView pg' q = pageView pg q)
    (i : Nat) : rowSlotV pg' i = rowSlotV pg i := by
  unfold rowSlotV
  rw [h]

/-- One successful insert: below capacity, `execute_insert` returns
`Success`, writes the serialized row into the next free slot and leaves all
other slots alone. -/
theorem execute_insert_ok (rs : List Row) (r : Row) (t : Table)
    (hrep : TableRep rs t) (hcap : rs.length < 1400) (hr : LegalRow r) :
    ∃ t', execute_insert t r = (t', .ok .Success) ∧ TableRep (rs ++ [r]) t' := by
  have hnum : ¬ t.num_rows = TABLE_MAX_ROWS := by
    rw [hrep.nrows, TABLE_MAX_ROWS_eq]
    omega
  have hple : t.num_rows / ROWS_PER_PAGE ≤ MAX_PAGES := by
    rw [hrep.nrows, ROWS_PER_PAGE_eq, MAX_PAGES_eq]
    omega
  obtain ⟨pg', hgp, hfl, hfile, hcp, hpp, hview, hciff⟩ := get_page_spec t.pager _ hple
  have hblen : (serialize_row r).length = 291 := serialize_row_length r hr
  have hnw : ¬ ROW_SIZE < (serialize_row r).length := by
    rw [hblen, ROW_SIZE_eq]
    omega
  refine ⟨{ num_rows := t.num_rows + 1,
            pager :=
              { pg' with
                pages := fun q =>
                  if q = t.num_rows / ROWS_PER_PAGE
                  then writeRange (pg'.pages (t.num_rows / ROWS_PER_PAGE))
                         (t.num_rows % ROWS_PER_PAGE * ROW_SIZE) (serialize_row r)
                  else pg'.pages q } }, ?_, ?_⟩
  · simp only [execute_insert]
    rw [if_neg hnum, hgp]
    simp only []
    rw [if_neg hnw]
  · have hpv : ∀ q,
        pageView { pg' with
          pages := fun q =>
            if q = t.num_rows / ROWS_PER_PAGE
            then writeRange (pg'.pages (t.num_rows / ROWS_PER_PAGE))
                   (t.num_rows % ROWS_PER_PAGE * ROW_SIZE) (serialize_row r)
            else pg'.pages q } q
          = if q = t.num_rows / ROWS_PER_PAGE
            then writeRange (pageView t.pager (t.num_rows / ROWS_PER_PAGE))
                   (t.num_rows % ROWS_PER_PAGE * ROW_SIZE) (serialize_row r)
            else pageView t.pager q := by
      intro q
      by_cases hq : q = t.num_rows / ROWS_PER_PAGE
      · subst hq
        unfold pageView
        simp [hcp, hpp]
        rfl
      · rw [if_neg hq]
        rw [← hview q]
        unfold pageView fileSlice
        simp only [if_neg hq]
    refine ⟨by simp [hrep.nrows], by rw [hfl, hrep.flen], ?_, ?_⟩
    · intro q
      show pg'.cached q = true ↔ _
      rw [hciff q, hrep.cached_iff q, hrep.nrows]
      simp only [List.length_append, List.length_singleton]
      rw [ROWS_PER_PAGE_eq]
      omega
    · intro i hi
      have hi' : i < rs.length + 1 := by simpa using hi
      show rowSlotV _ i = _
      unfold rowSlotV
      rw [hpv (i / ROWS_PER_PAGE)]
      by_cases hieq : i = t.num_rows
      · subst hieq
        rw [if_pos rfl]
        have hRS : ROW_SIZE = (serialize_row r).length := by
          rw [hblen, ROW_SIZE_eq]
        rw [hRS, readRange_writeRange_self]
        rw [hrep.nrows, getD_concat_length]
      · have hnr := hrep.nrows
        have hilt : i < t.num_rows := by omega
        have hilt' : i < rs.length := by omega
        by_cases hip : i / ROWS_PER_PAGE = t.num_rows / ROWS_PER_PAGE
        · rw [if_pos hip]
          rw [readRange_writeRange_of_disjoint _ _ _ _ _ ?_]
          · rw [← hip]
            have h1 := hrep.rows i hilt'
            unfold rowSlotV at h1
            rw [h1, getD_concat_lt _ _ _ _ hilt']
          · rw [hblen, ROWS_PER_PAGE_eq, ROW_SIZE_eq]
            rw [ROWS_PER_PAGE_eq] at hip
            have hmodne : i % 14 ≠ t.num_rows % 14 := by
              intro hmod
              exact hieq (by omega)
            omega
        · rw [if_neg hip]
          have h1 := hrep.rows i hilt'
          unfold rowSlotV at h1
          rw [h1, getD_concat_lt _ _ _ _ hilt']

end MainDb

namespace MainDb

/-- Running a list of legal inserts from a represented table succeeds and
extends the representation. -/
theorem insertAll_ok (rs : List Row) : ∀ (done : List Row) (t : Table),
    TableRep done t → done.length + rs.length ≤ 1400 → (∀ r ∈ rs, LegalRow r) →
    ∃ t', insertAll t rs = (t', .ok ()) ∧ TableRep (done ++ rs) t' := by
  induction rs with
  | nil =>
    intro done t hrep _ _
    exact ⟨t, rfl, by simpa using hrep⟩
  | cons r rest ih =>
    intro done t hrep hcap hleg
    have hlen : done.length < 1400 := by
      simp only [List.length_cons] at hcap
      omega
    obtain ⟨t1, he, hrep1⟩ := execute_insert_ok done r t hrep hlen (hleg r (by simp))
    have hcap1 : (done ++ [r]).length + rest.length ≤ 1400 := by
      simp only [List.length_append, List.length_singleton, List.length_cons,
        List.length_nil] at hcap ⊢
      omega
    obtain ⟨t', hrest, hrep'⟩ := ih (done ++ [r]) t1 hrep1 hcap1
      (fun x hx => hleg x (by simp [hx]))
    refine ⟨t', ?_, by simpa [List.append_assoc] using hrep'⟩
    show insertAll t (r :: rest) = (t', .ok ())
    unfold insertAll
    rw [show execute_statement t (.Insert r) = execute_insert t r from rfl, he]
    exact hrest

/-- The select loop over any in-range list of row indices succeeds, returns
the deserialized slot contents in order, and does not disturb any page's
effective contents. -/
theorem select_loop_spec (l : List Nat) : ∀ (t : Table),
    (∀ i ∈ l, i / ROWS_PER_PAGE ≤ MAX_PAGES) →
    ∃ t', select_loop t l
        = (t', .ok (l.map fun i => toResultRow (deserialize_row (rowSlotV t.pager i)))) ∧
      t'.num_rows = t.num_rows ∧
      (∀ q, pageView t'.pager q = pageView t.pager q) := by
  induction l with
  | nil =>
    intro t _
    exact ⟨t, rfl, rfl, fun q => rfl⟩
  | cons i rest ih =>
    intro t hl
    obtain ⟨pg', hgp, hfl, hfile, hcp, hpp, hview, hciff⟩ :=
      get_page_spec t.pager (i / ROWS_PER_PAGE) (hl i (by simp))
    obtain ⟨t', hrest, hnum, hview'⟩ :=
      ih { t with pager := pg' } (fun j hj => hl j (by simp [hj]))
    have hbuf : readRange (pg'.pages (i / ROWS_PER_PAGE)) (i % ROWS_PER_PAGE * ROW_SIZE) ROW_SIZE
        = rowSlotV t.pager i := by
      unfold rowSlotV
      rw [hpp]
    refine ⟨t', ?_, by rw [hnum], fun q => by rw [hview' q, hview q]⟩
    show select_loop t (i :: rest) = _
    simp only [select_loop]
    rw [hgp]
    simp only []
    rw [if_pos (readRange_length _ _ _), hrest, hbuf]
    simp only [List.map_cons, rowSlotV_congr t.pager pg' hview]

end MainDb

namespace MainDb

theorem map_range_getD (rs : List Row) (f : Row → ResultRow) (d : Row) :
    (List.range rs.length).map (fun i => f (rs.getD i d)) = rs.map f := by
  apply List.ext_getElem (by simp)
  intro i h1 h2
  simp only [List.getElem_map, List.getElem_range]
  have hi : i < rs.length := by simpa using h2
  rw [List.getD_eq_getElem rs d hi]

end MainDb

open MainDb in
/-- C1: for every sequence of legal inserts (usernames at most 32 bytes,
emails at most 255 bytes, count within capacity) run against a table over an
empty file, a subsequent select returns exactly the inserted rows in
insertion order, each with username and email zero-padded to the fixed
on-disk widths, and zero-trimming the returned fields for display recovers
the zero-trimmed inputs. -/
theorem c1_insert_select_round_trip (rs : List Row)
    (hlegal : ∀ r ∈ rs, LegalRow r) (hcap : rs.length ≤ TABLE_MAX_ROWS) :
    (insertAll emptyTable rs).2 = .ok () ∧
    (execute_statement (insertAll emptyTable rs).1 .Select).2
      = .ok (.Rows (rs.map storedRow)) ∧
    (rs.map storedRow).map displayRow
      = rs.map (fun r => (r.id, trimZeros r.username, trimZeros r.email)) := by
  rw [TABLE_MAX_ROWS_eq] at hcap
  obtain ⟨t, hins, hrep⟩ := insertAll_ok rs [] emptyTable emptyTable_rep
    (by simpa using hcap) hlegal
  rw [List.nil_append] at hrep
  rw [hins]
  have hpages : ∀ i ∈ List.range t.num_rows, i / ROWS_PER_PAGE ≤ MAX_PAGES := by
    intro i hi
    rw [List.mem_range, hrep.nrows] at hi
    rw [ROWS_PER_PAGE_eq, MAX_PAGES_eq]
    omega
  obtain ⟨t', hloop, _, _⟩ := select_loop_spec (List.range t.num_rows) t hpages
  have hlist : (List.range t.num_rows).map
        (fun i => toResultRow (deserialize_row (rowSlotV t.pager i)))
      = rs.map storedRow := by
    have hstep : ∀ i ∈ List.range t.num_rows,
        toResultRow (deserialize_row (rowSlotV t.pager i))
          = storedRow (rs.getD i ⟨0, [], []⟩) := by
      intro i hi
      rw [List.mem_range, hrep.nrows] at hi
      rw [hrep.rows i hi]
      have hmem : rs.getD i ⟨0, [], []⟩ ∈ rs := by
        rw [List.getD_eq_getElem rs _ hi]
        exact List.getElem_mem hi
      rw [deserialize_serialize _ (hlegal _ hmem)]
      rfl
    calc (List.range t.num_rows).map
          (fun i => toResultRow (deserialize_row (rowSlotV t.pager i)))
        = (List.range t.num_rows).map (fun i => storedRow (rs.getD i ⟨0, [], []⟩)) :=
          List.map_congr_left hstep
      _ = rs.map storedRow := by
          rw [hrep.nrows]
          exact map_range_getD rs storedRow _
  refine ⟨rfl, ?_, ?_⟩
  · show (execute_statement t .Select).2 = _
    unfold execute_statement
    rw [hloop]
    simp only []
    rw [hlist]
  · rw [List.map_map]
    apply List.map_congr_left
    intro r hr
    show displayRow (storedRow r) = _
    unfold displayRow storedRow
    simp only
    rw [trimZeros_padTo, trimZeros_padTo]

open MainDb in
/-- Witness for C1: insert `(1, "user1", "p@e")`, then select. -/
theorem c1_insert_select_round_trip_witness :
    (insertAll MainDb.emptyTable
        [⟨1, [117, 115, 101, 114, 49], [112, 64, 101]⟩]).2 = .ok () ∧
    (MainDb.execute_statement
        (insertAll MainDb.emptyTable [⟨1, [117, 115, 101, 114, 49], [112, 64, 101]⟩]).1
        .Select).2
      = .ok (.Rows ([(⟨1, [117, 115, 101, 114, 49], [112, 64, 101]⟩ : MainDb.Row)].map
          MainDb.storedRow)) ∧
    ([(⟨1, [117, 115, 101, 114, 49], [112, 64, 101]⟩ : MainDb.Row)].map
        MainDb.storedRow).map MainDb.displayRow
      = [(⟨1, [117, 115, 101, 114, 49], [112, 64, 101]⟩ : MainDb.Row)].map
          (fun r => (r.id, trimZeros r.username, trimZeros r.email)) :=
  c1_insert_select_round_trip _
    (by
      intro r hr
      rw [List.mem_singleton] at hr
      subst hr
      decide)
    (by decide)

open MainDb in
/-- C2: from an empty table, inserting exactly `TABLE_MAX_ROWS` legal rows
all succeed, and one further insert returns `TableFull` while leaving the
table — row count and all pages — unchanged. -/
theorem c2_capacity_boundary (rs : List Row) (r : Row)
    (hlen : rs.length = TABLE_MAX_ROWS) (hlegal : ∀ x ∈ rs, LegalRow x) :
    (insertAll emptyTable rs).2 = .ok () ∧
    execute_statement (insertAll emptyTable rs).1 (.Insert r)
      = ((insertAll emptyTable rs).1, .error .TableFull) := by
  rw [TABLE_MAX_ROWS_eq] at hlen
  obtain ⟨t, hins, hrep⟩ := insertAll_ok rs [] emptyTable emptyTable_rep
    (by simp [hlen]) hlegal
  rw [List.nil_append] at hrep
  rw [hins]
  refine ⟨rfl, ?_⟩
  show execute_insert t r = (t, .error .TableFull)
  unfold execute_insert
  rw [if_pos (by rw [hrep.nrows, hlen, TABLE_MAX_ROWS_eq])]

open MainDb in
/-- Witness for C2: 1400 copies of the row `(0, "", "")` fill the table and
the next insert is rejected with `TableFull`. -/
theorem c2_capacity_boundary_witness :
    (insertAll MainDb.emptyTable (List.replicate 1400 ⟨0, [], []⟩)).2 = .ok () ∧
    MainDb.execute_statement
        (insertAll MainDb.emptyTable (List.replicate 1400 ⟨0, [], []⟩)).1
        (.Insert ⟨1, [], []⟩)
      = ((insertAll MainDb.emptyTable (List.replicate 1400 ⟨0, [], []⟩)).1,
         .error .TableFull) :=
  c2_capacity_boundary _ _
    (by rw [List.length_replicate, MainDb.TABLE_MAX_ROWS_eq])
    (by
      intro x hx
      rw [List.eq_of_mem_replicate hx]
      decide)

namespace MainDb

/-- The full-page writes of `Pager::flush`: for each `page_num` in
`0..num_full_pages`, skip it if not cached, otherwise seek to
`page_num * PAGE_SIZE` and write the whole 4096-byte buffer. -/
def fullWrites (pg : Pager) (num_full_pages : Nat) : List (Nat × List Nat) :=
  (List.range num_full_pages).filterMap fun p =>
    if pg.cached p = true then some (p * PAGE_SIZE, readRange (pg.pages p) 0 PAGE_SIZE)
    else none

/-- All writes `Pager::flush` performs, in order: the full pages, then — when
`num_additional_bytes > 0` and the page after the full ones is cached — a
partial write of that page's first `num_additional_bytes` bytes at its
offset. -/
def flushWrites (pg : Pager) (num_full_pages num_additional_bytes : Nat) :
    List (Nat × List Nat) :=
  fullWrites pg num_full_pages ++
    (if num_additional_bytes > 0 then
      if pg.cached num_full_pages = true then
        [(num_full_pages * PAGE_SIZE,
          readRange (pg.pages num_full_pages) 0 num_additional_bytes)]
      else []
    else [])

/-- Apply one `seek + write_all` to the backing file. -/
def applyWrite (f : DbFile) (w : Nat × List Nat) : DbFile :=
  { length := max f.length (w.1 + (w.2).length)
    content := writeRange f.content w.1 w.2 }

/-- `Pager::flush num_full_pages num_additional_bytes`: perform all the
writes against the backing file and return the resulting file. -/
def Pager.flush (pg : Pager) (num_full_pages num_additional_bytes : Nat) : DbFile :=
  (flushWrites pg num_full_pages num_additional_bytes).foldl applyWrite
    { length := pg.file_length, content := pg.file }

/-- `Table::drop`: flush `num_rows / ROWS_PER_PAGE` full pages plus the
`(num_rows % ROWS_PER_PAGE) * ROW_SIZE` bytes of the trailing partial page. -/
def Table.drop (t : Table) : DbFile :=
  Pager.flush t.pager (t.num_rows / ROWS_PER_PAGE) (t.num_rows % ROWS_PER_PAGE * ROW_SIZE)

theorem readRange_const (c off len : Nat) :
    readRange (fun _ => c) off len = List.replicate len c := by
  apply List.ext_getElem (by simp [readRange])
  intro i h1 h2
  simp [readRange]

theorem fullWrites_succ (pg : Pager) (k : Nat) (hc : pg.cached k = true) :
    fullWrites pg (k + 1)
      = fullWrites pg k ++ [(k * PAGE_SIZE, readRange (pg.pages k) 0 PAGE_SIZE)] := by
  unfold fullWrites
  rw [List.range_succ, List.filterMap_append]
  congr 1
  simp [hc]

/-- Folding the full-page writes over an empty file yields a file of exactly
`k` pages whose bytes coincide with the cached pages. -/
theorem fullWrites_foldl (pg : Pager) (c0 : Nat → Nat) (k : Nat)
    (hall : ∀ p, p < k → pg.cached p = true) :
    (fullWrites pg k).foldl applyWrite { length := 0, content := c0 }
      = { length := k * PAGE_SIZE
          content := fun addr =>
            if addr < k * PAGE_SIZE then pg.pages (addr / PAGE_SIZE) (addr % PAGE_SIZE)
            else c0 addr } := by
  induction k with
  | zero =>
    simp only [fullWrites, List.range_zero, List.filterMap_nil, List.foldl_nil]
    have hc : (fun addr => if addr < 0 * PAGE_SIZE then
          pg.pages (addr / PAGE_SIZE) (addr % PAGE_SIZE) else c0 addr) = c0 := by
      funext addr
      rw [if_neg (by omega)]
    rw [hc, Nat.zero_mul]
  | succ k ih =>
    rw [fullWrites_succ pg k (hall k (by omega)), List.foldl_append,
      ih (fun p hp => hall p (by omega))]
    simp only [List.foldl_cons, List.foldl_nil]
    unfold applyWrite
    congr 1
    · show max (k * PAGE_SIZE) (k * PAGE_SIZE + (readRange (pg.pages k) 0 PAGE_SIZE).length)
        = (k + 1) * PAGE_SIZE
      rw [readRange_length]
      rw [PAGE_SIZE_eq]
      omega
    · funext addr
      show writeRange _ (k * PAGE_SIZE) (readRange (pg.pages k) 0 PAGE_SIZE) addr = _
      unfold writeRange
      rw [readRange_length]
      by_cases hwin : k * PAGE_SIZE ≤ addr ∧ addr < k * PAGE_SIZE + PAGE_SIZE
      · rw [if_pos hwin]
        rw [readRange_getD _ _ _ _ (by rw [PAGE_SIZE_eq] at hwin ⊢; omega)]
        rw [if_pos (by rw [PAGE_SIZE_eq] at hwin ⊢; omega)]
        have h1 : addr / PAGE_SIZE = k := by
          rw [PAGE_SIZE_eq] at hwin ⊢
          omega
        have h2 : addr % PAGE_SIZE = addr - k * PAGE_SIZE := by
          rw [PAGE_SIZE_eq] at hwin ⊢
          omega
        rw [h1, h2, Nat.zero_add]
      · rw [if_neg hwin]
        dsimp only
        by_cases hlt : addr < k * PAGE_SIZE
        · rw [if_pos hlt, if_pos (by rw [PAGE_SIZE_eq] at hlt ⊢; omega)]
        · rw [if_neg hlt, if_neg (by rw [PAGE_SIZE_eq] at hwin hlt ⊢; omega)]

/-- Characterization of the file produced by `flush` from a pager whose
backing file was empty: its length is `q` full pages plus the partial bytes,
and every byte inside that extent is the corresponding cached page byte. -/
theorem flush_spec (pg : Pager) (q r : Nat)
    (hall : ∀ p, p < q → pg.cached p = true)
    (hpart : 0 < r → pg.cached q = true)
    (hflen : pg.file_length = 0) :
    (Pager.flush pg q r).length = q * PAGE_SIZE + r ∧
    (∀ p o, o < PAGE_SIZE → (p < q ∨ (p = q ∧ o < r)) →
      (Pager.flush pg q r).content (p * PAGE_SIZE + o) = pg.pages p o) := by
  unfold Pager.flush flushWrites
  rw [List.foldl_append, hflen]
  rw [fullWrites_foldl pg pg.file q hall]
  by_cases hr0 : 0 < r
  · rw [if_pos hr0, if_pos (hpart hr0)]
    simp only [List.foldl_cons, List.foldl_nil]
    unfold applyWrite
    constructor
    · show max (q * PAGE_SIZE) (q * PAGE_SIZE + (readRange (pg.pages q) 0 r).length)
        = q * PAGE_SIZE + r
      rw [readRange_length]
      omega
    · intro p o ho hcond
      show writeRange _ (q * PAGE_SIZE) (readRange (pg.pages q) 0 r) (p * PAGE_SIZE + o) = _
      unfold writeRange
      rw [readRange_length]
      rcases hcond with hp | ⟨hp, hor⟩
      · rw [if_neg (by rw [PAGE_SIZE_eq] at ho ⊢; omega)]
        dsimp only
        rw [if_pos (by rw [PAGE_SIZE_eq] at ho ⊢; omega)]
        have h1 : (p * PAGE_SIZE + o) / PAGE_SIZE = p := by
          rw [PAGE_SIZE_eq] at ho ⊢
          omega
        have h2 : (p * PAGE_SIZE + o) % PAGE_SIZE = o := by
          rw [PAGE_SIZE_eq] at ho ⊢
          omega
        rw [h1, h2]
      · subst hp
        rw [if_pos (by constructor <;> omega)]
        rw [readRange_getD _ _ _ _ (by omega), Nat.add_sub_cancel_left, Nat.zero_add]
  · rw [if_neg hr0]
    simp only [List.foldl_nil]
    constructor
    · show q * PAGE_SIZE = q * PAGE_SIZE + r
      omega
    · intro p o ho hcond
      rcases hcond with hp | ⟨hp, hor⟩
      · rw [if_pos (by rw [PAGE_SIZE_eq] at ho ⊢; omega)]
        have h1 : (p * PAGE_SIZE + o) / PAGE_SIZE = p := by
          rw [PAGE_SIZE_eq] at ho ⊢
          omega
        have h2 : (p * PAGE_SIZE + o) % PAGE_SIZE = o := by
          rw [PAGE_SIZE_eq] at ho ⊢
          omega
        rw [h1, h2]
      · omega

end MainDb

namespace MainDb

/-- The table `Table::new` yields over a given backing file (the pager's
error paths are file-I/O only, which the embedding does not model). -/
def openedTable (f : DbFile) : Table :=
  { num_rows := f.length / ROW_SIZE
    pager := { file_length := f.length, file := f.content
               cached := fun _ => false, pages := fun _ _ => 0 } }

theorem Table_new_eq (f : DbFile) : Table.new f = .ok (openedTable f) := rfl

theorem openedTable_pageView (f : DbFile) (p : Nat) :
    pageView (openedTable f).pager p
      = fun o => if p * PAGE_SIZE + o < f.length then f.content (p * PAGE_SIZE + o) else 0 := by
  unfold pageView
  rw [if_neg (by simp [openedTable])]
  rfl

/-- After a clean drop, reopening the file preserves the bytes of every row
slot that held a row, while every later slot reads as zeros. -/
theorem reopen_after_drop (rs : List Row) (t : Table) (hrep : TableRep rs t) :
    (Table.drop t).length = rs.length / 14 * 4096 + rs.length % 14 * 291 ∧
    (∀ i, i < rs.length →
      rowSlotV (openedTable (Table.drop t)).pager i = rowSlotV t.pager i) ∧
    (∀ i, rs.length ≤ i →
      rowSlotV (openedTable (Table.drop t)).pager i = List.replicate 291 0) := by
  have hdrop : Table.drop t = Pager.flush t.pager (rs.length / 14) (rs.length % 14 * 291) := by
    unfold Table.drop
    rw [hrep.nrows, ROWS_PER_PAGE_eq, ROW_SIZE_eq]
  have hall : ∀ p, p < rs.length / 14 → t.pager.cached p = true := by
    intro p hp
    rw [hrep.cached_iff]
    omega
  have hpart : 0 < rs.length % 14 * 291 → t.pager.cached (rs.length / 14) = true := by
    intro hp
    rw [hrep.cached_iff]
    omega
  obtain ⟨hlen, hcont⟩ := flush_spec t.pager (rs.length / 14) (rs.length % 14 * 291)
    hall hpart hrep.flen
  rw [PAGE_SIZE_eq] at hlen hcont
  rw [hdrop]
  refine ⟨hlen, ?_, ?_⟩
  · intro i hi
    unfold rowSlotV
    apply List.ext_getElem (by rw [readRange_length, readRange_length])
    intro j h1 h2
    have hj : j < 291 := by
      rw [readRange_length, ROW_SIZE_eq] at h1
      exact h1
    simp only [readRange, List.getElem_map, List.getElem_range]
    rw [openedTable_pageView]
    dsimp only
    rw [hlen]
    rw [ROWS_PER_PAGE_eq, ROW_SIZE_eq, PAGE_SIZE_eq]
    have hcached : t.pager.cached (i / 14) = true := by
      rw [hrep.cached_iff]
      omega
    have hcond : i / 14 < rs.length / 14 ∨
        (i / 14 = rs.length / 14 ∧ i % 14 * 291 + j < rs.length % 14 * 291) := by
      omega
    have haddr : i / 14 * 4096 + (i % 14 * 291 + j)
        < rs.length / 14 * 4096 + rs.length % 14 * 291 := by
      omega
    rw [if_pos haddr]
    have hc := hcont (i / 14) (i % 14 * 291 + j) (by omega) hcond
    rw [hc]
    unfold pageView
    rw [if_pos hcached]
  · intro i hi
    unfold rowSlotV
    apply List.ext_getElem (by rw [readRange_length, List.length_replicate]; rfl)
    intro j h1 h2
    have hj : j < 291 := by
      rw [readRange_length, ROW_SIZE_eq] at h1
      exact h1
    simp only [readRange, List.getElem_map, List.getElem_range, List.getElem_replicate]
    rw [openedTable_pageView]
    dsimp only
    rw [hlen]
    rw [ROWS_PER_PAGE_eq, ROW_SIZE_eq, PAGE_SIZE_eq]
    rw [if_neg (by omega)]

end MainDb

open MainDb in
/-- C3 (amended): for at most 195 successful legal inserts into a table over
an empty file, cleanly dropping the table (flushing every cached page) and
opening a fresh table over the flushed file makes select return exactly the
inserted rows, in order.  At 196 rows and beyond the reopened table
overestimates its row count, because `Table::new` derives it as
`file_length / ROW_SIZE` while the flushed length is
`(n / 14) * PAGE_SIZE + (n % 14) * ROW_SIZE`. -/
theorem c3_persistence_round_trip (rs : List Row)
    (hlegal : ∀ r ∈ rs, LegalRow r) (hcap : rs.length ≤ 195) :
    (insertAll emptyTable rs).2 = .ok () ∧
    ∃ t2, Table.new (Table.drop (insertAll emptyTable rs).1) = .ok t2 ∧
      (execute_statement t2 .Select).2 = .ok (.Rows (rs.map storedRow)) := by
  obtain ⟨t, hins, hrep⟩ := insertAll_ok rs [] emptyTable emptyTable_rep
    (by simp; omega) hlegal
  rw [List.nil_append] at hrep
  rw [hins]
  obtain ⟨hlen, hkeep, hzero⟩ := reopen_after_drop rs t hrep
  refine ⟨rfl, openedTable (Table.drop t), Table_new_eq _, ?_⟩
  have hnum : (openedTable (Table.drop t)).num_rows = rs.length := by
    show (Table.drop t).length / ROW_SIZE = rs.length
    rw [hlen, ROW_SIZE_eq]
    omega
  have hpages : ∀ i ∈ List.range (openedTable (Table.drop t)).num_rows,
      i / ROWS_PER_PAGE ≤ MAX_PAGES := by
    intro i hi
    rw [List.mem_range, hnum] at hi
    rw [ROWS_PER_PAGE_eq, MAX_PAGES_eq]
    omega
  obtain ⟨t', hloop, _, _⟩ := select_loop_spec _ _ hpages
  have hlist : (List.range (openedTable (Table.drop t)).num_rows).map
        (fun i => toResultRow (deserialize_row (rowSlotV (openedTable (Table.drop t)).pager i)))
      = rs.map storedRow := by
    rw [hnum]
    have hstep : ∀ i ∈ List.range rs.length,
        toResultRow (deserialize_row (rowSlotV (openedTable (Table.drop t)).pager i))
          = storedRow (rs.getD i ⟨0, [], []⟩) := by
      intro i hi
      rw [List.mem_range] at hi
      rw [hkeep i hi, hrep.rows i hi]
      have hmem : rs.getD i ⟨0, [], []⟩ ∈ rs := by
        rw [List.getD_eq_getElem rs _ hi]
        exact List.getElem_mem hi
      rw [deserialize_serialize _ (hlegal _ hmem)]
      rfl
    rw [List.map_congr_left hstep]
    exact map_range_getD rs storedRow _
  unfold execute_statement
  rw [hloop]
  simp only []
  rw [hlist]

open MainDb in
/-- Witness for C3: one row `(1, "u", "e")` survives drop and reopen. -/
theorem c3_persistence_round_trip_witness :
    (insertAll MainDb.emptyTable [⟨1, [117], [101]⟩]).2 = .ok () ∧
    ∃ t2, Table.new (Table.drop (insertAll MainDb.emptyTable [⟨1, [117], [101]⟩]).1)
        = .ok t2 ∧
      (MainDb.execute_statement t2 .Select).2
        = .ok (.Rows ([(⟨1, [117], [101]⟩ : MainDb.Row)].map MainDb.storedRow)) :=
  c3_persistence_round_trip _
    (by
      intro r hr
      rw [List.mem_singleton] at hr
      subst hr
      decide)
    (by decide)

/-- Deserializing an all-zero slot yields the zero row with zero-padded
empty fields. -/
theorem deserialize_zero_slot :
    MainDb.deserialize_row (List.replicate 291 0)
      = { id := 0, username := List.replicate 32 0, email := List.replicate 255 0 } := by
  decide

open MainDb in
/-- Counterexample to C3 as stated: after 196 successful inserts of the row
`(0, "", "")` and a clean drop, the reopened table's select reports 197
rows — the 196 stored ones plus one phantom all-zero row — because the
flushed file is 14 full pages (57344 bytes) and `57344 / 291 = 197`. -/
theorem c3_counterexample :
    ∃ t2, Table.new
        (Table.drop (insertAll MainDb.emptyTable (List.replicate 196 ⟨0, [], []⟩)).1)
        = .ok t2 ∧
      (MainDb.execute_statement t2 .Select).2
        = .ok (.Rows (List.replicate 197 ⟨0, List.replicate 32 0, List.replicate 255 0⟩)) ∧
      (List.replicate 197
          (⟨0, List.replicate 32 0, List.replicate 255 0⟩ : MainDb.ResultRow))
        ≠ (List.replicate 196 (⟨0, [], []⟩ : MainDb.Row)).map MainDb.storedRow := by
  obtain ⟨t, hins, hrep⟩ := insertAll_ok (List.replicate 196 ⟨0, [], []⟩) [] emptyTable
    emptyTable_rep (by simp only [List.length_nil, List.length_replicate]; omega)
    (by
      intro x hx
      rw [List.eq_of_mem_replicate hx]
      decide)
  rw [List.nil_append] at hrep
  rw [hins]
  obtain ⟨hlen, hkeep, hzero⟩ := reopen_after_drop _ t hrep
  rw [List.length_replicate] at hlen hkeep hzero
  refine ⟨openedTable (Table.drop t), Table_new_eq _, ?_, ?_⟩
  · have hnum : (openedTable (Table.drop t)).num_rows = 197 := by
      show (Table.drop t).length / ROW_SIZE = 197
      rw [hlen, ROW_SIZE_eq]
    have hpages : ∀ i ∈ List.range (openedTable (Table.drop t)).num_rows,
        i / ROWS_PER_PAGE ≤ MAX_PAGES := by
      intro i hi
      rw [List.mem_range, hnum] at hi
      rw [ROWS_PER_PAGE_eq, MAX_PAGES_eq]
      omega
    obtain ⟨t', hloop, _, _⟩ := select_loop_spec _ _ hpages
    have hstep : ∀ i ∈ List.range (openedTable (Table.drop t)).num_rows,
        toResultRow (deserialize_row (rowSlotV (openedTable (Table.drop t)).pager i))
          = (⟨0, List.replicate 32 0, List.replicate 255 0⟩ : ResultRow) := by
      intro i hi
      rw [List.mem_range, hnum] at hi
      by_cases hlt : i < 196
      · rw [hkeep i hlt, hrep.rows i (by rw [List.length_replicate]; omega)]
        rw [show (List.replicate 196 (⟨0, [], []⟩ : Row)).getD i ⟨0, [], []⟩
            = (⟨0, [], []⟩ : Row) by
          rw [List.getD_eq_getElem _ _ (by rw [List.length_replicate]; omega),
            List.getElem_replicate]]
        rw [deserialize_serialize _ (by decide)]
        rfl
      · rw [hzero i (by omega), deserialize_zero_slot]
        rfl
    have hlist : (List.range (openedTable (Table.drop t)).num_rows).map
          (fun i => toResultRow (deserialize_row (rowSlotV (openedTable (Table.drop t)).pager i)))
        = List.replicate 197 (⟨0, List.replicate 32 0, List.replicate 255 0⟩ : ResultRow) := by
      rw [List.map_congr_left hstep]
      rw [List.map_const', List.length_range, hnum]
    unfold execute_statement
    rw [hloop]
    simp only []
    rw [hlist]
  · intro h
    have hlen' := congrArg List.length h
    simp only [List.length_replicate, List.length_map] at hlen'
    omega

open MainDb in
/-- C4 (amended): opening a backing file whose length is not a multiple of
`PAGE_SIZE` succeeds.  `Pager::new` records the observed length without any
divisibility check (its error type has only `File` and `PagesFull`, no
corrupt-file variant), `Table::new` derives `num_rows = length / ROW_SIZE`,
and `get_page 0` tolerates the short read, zero-filling the buffer past the
end of the file. -/
theorem c4_corrupt_length_open_succeeds (f : DbFile) (h : f.length % PAGE_SIZE ≠ 0) :
    (∃ pg, Pager.new f = .ok pg ∧ pg.file_length = f.length) ∧
    Table.new f = .ok (openedTable f) ∧
    (∃ pg2, get_page (openedTable f).pager 0 = .ok pg2 ∧
      (∀ o, o < f.length → pg2.pages 0 o = f.content o) ∧
      (∀ o, f.length ≤ o → pg2.pages 0 o = 0)) := by
  refine ⟨⟨_, rfl, rfl⟩, Table_new_eq f, ?_⟩
  obtain ⟨pg2, hgp, _, _, _, hpp, _, _⟩ :=
    get_page_spec (openedTable f).pager 0 (by rw [MAX_PAGES_eq]; omega)
  refine ⟨pg2, hgp, ?_, ?_⟩
  · intro o ho
    rw [hpp, openedTable_pageView]
    dsimp only
    rw [if_pos (by omega), Nat.zero_mul, Nat.zero_add]
  · intro o ho
    rw [hpp, openedTable_pageView]
    dsimp only
    rw [if_neg (by omega)]

open MainDb in
/-- Witness for C4: a 291-byte file (one flushed row) opens fine. -/
theorem c4_corrupt_length_open_succeeds_witness :
    (∃ pg, Pager.new { length := 291, content := fun _ => 9 } = .ok pg ∧
      pg.file_length = ({ length := 291, content := fun _ => 9 } : DbFile).length) ∧
    Table.new { length := 291, content := fun _ => 9 }
      = .ok (openedTable { length := 291, content := fun _ => 9 }) ∧
    (∃ pg2, get_page (openedTable { length := 291, content := fun _ => 9 }).pager 0
        = .ok pg2 ∧
      (∀ o, o < ({ length := 291, content := fun _ => 9 } : DbFile).length →
        pg2.pages 0 o = ({ length := 291, content := fun _ => 9 } : DbFile).content o) ∧
      (∀ o, ({ length := 291, content := fun _ => 9 } : DbFile).length ≤ o →
        pg2.pages 0 o = 0)) :=
  c4_corrupt_length_open_succeeds _ (by decide)

open MainDb in
/-- Counterexample to C4 as stated: constructing the pager over a file whose
length (291) is not a multiple of `PAGE_SIZE` succeeds rather than failing;
no `CorruptFile` check or error variant exists in the source. -/
theorem c4_counterexample :
    (Pager.new { length := 291, content := fun _ => 9 }).isOk = true ∧
    (291 : Nat) % PAGE_SIZE ≠ 0 :=
  ⟨rfl, by decide⟩

namespace MainDb

/-- A pager holding only page 0, filled with the byte 7, over an empty file:
the concrete input for the C8 witness and counterexample. -/
def c8Pager : Pager :=
  { file_length := 0, file := fun _ => 0
    cached := fun p => p == 0, pages := fun _ _ => 7 }

end MainDb

open MainDb in
/-- C8 (amended): every write `flush` performs is either the full
`PAGE_SIZE`-byte buffer of a cached page `p < num_full_pages` at offset
`p * PAGE_SIZE`, or the single partial write of the first
`num_additional_bytes` bytes of cached page `num_full_pages` at that page's
offset.  Cached pages at or beyond `num_full_pages` are otherwise not
written at all, and the partial write is genuinely shorter than a page
whenever `num_additional_bytes < PAGE_SIZE`. -/
theorem c8_flush_write_shape (pg : Pager) (nfp extra : Nat) :
    ∀ w ∈ flushWrites pg nfp extra,
      (∃ p, p < nfp ∧ pg.cached p = true ∧ w.1 = p * PAGE_SIZE ∧
        (w.2).length = PAGE_SIZE) ∨
      (0 < extra ∧ pg.cached nfp = true ∧ w.1 = nfp * PAGE_SIZE ∧
        (w.2).length = extra) := by
  intro w hw
  unfold flushWrites fullWrites at hw
  rw [List.mem_append] at hw
  rcases hw with hw | hw
  · left
    rw [List.mem_filterMap] at hw
    obtain ⟨p, hp, hpw⟩ := hw
    rw [List.mem_range] at hp
    by_cases hc : pg.cached p = true
    · rw [if_pos hc] at hpw
      obtain rfl := Option.some.inj hpw
      exact ⟨p, hp, hc, rfl, readRange_length _ _ _⟩
    · rw [if_neg hc] at hpw
      cases hpw
  · right
    by_cases hx : extra > 0
    · rw [if_pos hx] at hw
      by_cases hc : pg.cached nfp = true
      · rw [if_pos hc] at hw
        rw [List.mem_singleton] at hw
        subst hw
        exact ⟨hx, hc, rfl, readRange_length _ _ _⟩
      · rw [if_neg hc] at hw
        cases hw
    · rw [if_neg hx] at hw
      cases hw

open MainDb in
/-- Witness for C8: the single write performed when flushing one full page
from `c8Pager` is classified by the theorem. -/
theorem c8_flush_write_shape_witness :
    (∃ p, p < 1 ∧ c8Pager.cached p = true ∧
      ((0 : Nat), List.replicate PAGE_SIZE (7 : Nat)).1 = p * PAGE_SIZE ∧
      ((0 : Nat), List.replicate PAGE_SIZE (7 : Nat)).2.length = PAGE_SIZE) ∨
    (0 < 0 ∧ c8Pager.cached 1 = true ∧
      ((0 : Nat), List.replicate PAGE_SIZE (7 : Nat)).1 = 1 * PAGE_SIZE ∧
      ((0 : Nat), List.replicate PAGE_SIZE (7 : Nat)).2.length = 0) := by
  have hfw : flushWrites c8Pager 1 0 = [(0, List.replicate PAGE_SIZE 7)] := by
    unfold flushWrites fullWrites c8Pager
    rw [show List.range 1 = [0] from rfl]
    rw [List.filterMap_cons]
    dsimp only
    rw [if_pos (by rfl)]
    rw [List.filterMap_nil]
    rw [readRange_const]
    rw [if_neg (by omega : ¬ (0 : Nat) > 0)]
    rw [Nat.zero_mul, List.append_nil]
  exact c8_flush_write_shape c8Pager 1 0 (0, List.replicate PAGE_SIZE 7)
    (by rw [hfw]; exact List.mem_singleton.mpr rfl)

open MainDb in
/-- Counterexample to C8 as stated: flushing `c8Pager` with
`num_full_pages = 0` and `num_additional_bytes = 291` performs exactly one
write of 291 bytes — a partial-page write — even though page 0 is cached
with a full 4096-byte buffer that is never written in full. -/
theorem c8_counterexample :
    flushWrites c8Pager 0 291 = [(0, List.replicate 291 7)] ∧
    (List.replicate (291 : Nat) (7 : Nat)).length ≠ PAGE_SIZE := by
  constructor
  · unfold flushWrites fullWrites c8Pager
    rw [List.range_zero, List.filterMap_nil, List.nil_append]
    rw [if_pos (by omega : (291 : Nat) > 0)]
    rw [if_pos (by rfl)]
    rw [readRange_const]
    rw [Nat.zero_mul]
  · rw [List.length_replicate, PAGE_SIZE_eq]
    omega

namespace MainDb

theorem vm_serialize_row_length (r : Row) (h : LegalRow r) :
    (vm_serialize_row r).length = 291 := by
  rw [vm_serialize_row_spec r h]
  have h1 : r.username.length ≤ 32 := h.2.1
  have h2 : r.email.length ≤ 255 := h.2.2
  simp [u32ToLeBytes, padTo_length _ _ h1, padTo_length _ _ h2]

end MainDb

open MainDb in
/-- C6 (amended): for every in-range row both serializers produce exactly
`ROW_SIZE` bytes laid out as id bytes at `[0, 4)`, the username zero-padded
to 32 bytes at `[4, 36)` and the email zero-padded to 255 bytes at
`[36, 291)` — but the id encoding differs per path: little-endian on the
`virtual_machine.rs` cell-level path, big-endian on the `main.rs` flat-pages
path. -/
theorem c6_row_serialization_layout (r : Row) (h : LegalRow r) :
    vm_serialize_row r = u32ToLeBytes r.id ++ (padTo 32 r.username ++ padTo 255 r.email) ∧
    serialize_row r = u32ToBeBytes r.id ++ (padTo 32 r.username ++ padTo 255 r.email) ∧
    (vm_serialize_row r).length = ROW_SIZE ∧
    (serialize_row r).length = ROW_SIZE := by
  refine ⟨vm_serialize_row_spec r h, serialize_row_spec r h, ?_, ?_⟩
  · rw [vm_serialize_row_length r h, ROW_SIZE_eq]
  · rw [serialize_row_length r h, ROW_SIZE_eq]

open MainDb in
/-- Witness for C6 at the row `(7, "a", "bc")`. -/
theorem c6_row_serialization_layout_witness :
    vm_serialize_row ⟨7, [97], [98, 99]⟩
        = u32ToLeBytes 7 ++ (padTo 32 [97] ++ padTo 255 [98, 99]) ∧
    serialize_row ⟨7, [97], [98, 99]⟩
        = u32ToBeBytes 7 ++ (padTo 32 [97] ++ padTo 255 [98, 99]) ∧
    (vm_serialize_row ⟨7, [97], [98, 99]⟩).length = ROW_SIZE ∧
    (serialize_row ⟨7, [97], [98, 99]⟩).length = ROW_SIZE :=
  c6_row_serialization_layout _ (by decide)

open MainDb in
/-- Counterexample to C6 as stated: on the `main.rs` path the id 1 is
serialized big-endian — bytes `[0, 4)` are `[0, 0, 0, 1]`, not the
little-endian `[1, 0, 0, 0]` the claim requires of every path. -/
theorem c6_counterexample :
    (serialize_row ⟨1, [], []⟩).take 4 = [0, 0, 0, 1] ∧
    u32ToLeBytes 1 = [1, 0, 0, 0] ∧
    ([0, 0, 0, 1] : List Nat) ≠ [1, 0, 0, 0] := by
  refine ⟨?_, by decide, by decide⟩
  decide

/-! The single-leaf B-tree evolution (`src/btree.rs`, `src/table.rs`).  A
page is a list of bytes (4096 of them for a real page); the leaf-node view
reads and writes the header and cells at the offsets of `constants.rs`. -/

namespace BtreeDb

def COMMON_NODE_HEADER_SIZE : Nat := 6
def LEAF_NODE_NUM_CELLS_OFFSET : Nat := COMMON_NODE_HEADER_SIZE
def LEAF_NODE_HEADER_SIZE : Nat := COMMON_NODE_HEADER_SIZE + 4
def LEAF_NODE_KEY_SIZE : Nat := 4
def LEAF_NODE_VALUE_SIZE : Nat := MainDb.ROW_SIZE
def LEAF_NODE_CELL_SIZE : Nat := LEAF_NODE_KEY_SIZE + LEAF_NODE_VALUE_SIZE
def LEAF_NODE_SPACE_FOR_CELLS : Nat := MainDb.PAGE_SIZE - LEAF_NODE_HEADER_SIZE
def LEAF_NODE_MAX_CELLS : Nat := LEAF_NODE_SPACE_FOR_CELLS / LEAF_NODE_CELL_SIZE

theorem LEAF_NODE_CELL_SIZE_eq : LEAF_NODE_CELL_SIZE = 295 := rfl

theorem LEAF_NODE_MAX_CELLS_eq : LEAF_NODE_MAX_CELLS = 13 := rfl

/-- The errors of `table.rs`'s `TableError`. -/
inductive TableError
  | Pager
  | SplitNotImplemented
  | BadPageSize
deriving DecidableEq

/-- `LeafNode::reset_node_num_cells`: zero the four num-cells bytes. -/
def reset_node_num_cells (page : List Nat) : List Nat :=
  writeAt page LEAF_NODE_NUM_CELLS_OFFSET [0, 0, 0, 0]

/-- `LeafNode::leaf_node_num_cells`: the u32 LE at bytes `[6, 10)`. -/
def leaf_node_num_cells (page : List Nat) : Nat :=
  u32FromLeBytes ((page.drop LEAF_NODE_NUM_CELLS_OFFSET).take 4)

/-- `LeafNode::leaf_node_cell`: the source returns the mutable *suffix*
slice of the page starting at the cell's offset (not a 295-byte slice). -/
def leaf_node_cell (page : List Nat) (cell_num : Nat) : List Nat :=
  page.drop (LEAF_NODE_HEADER_SIZE + cell_num * LEAF_NODE_CELL_SIZE)

/-- `LeafNode::leaf_node_key`: the source takes the first **32** bytes of
the cell (`p_leaf_node_cell[..32]`) and feeds them to
`u32::from_le_bytes` via `try_into().unwrap()`, which requires exactly 4
bytes.  The conversion is modelled as the `Option`: `none` is the panic. -/
def leaf_node_key (page : List Nat) (cell_num : Nat) : Option Nat :=
  let p_leaf_node_cell := leaf_node_cell page cell_num
  let s := p_leaf_node_cell.take 32
  if s.length = 4 then some (u32FromLeBytes s) else none

/-- `LeafNode::leaf_node_value`: the suffix of the cell after its key. -/
def leaf_node_value (page : List Nat) (cell_num : Nat) : List Nat :=
  (leaf_node_cell page cell_num).drop LEAF_NODE_KEY_SIZE

/-- Swap the 295-byte cells `i` and `j` (the `std::mem::swap` of the two
converted cell arrays); only reachable if both length conversions succeed. -/
def swapCells (page : List Nat) (i j : Nat) : List Nat :=
  let ci := (leaf_node_cell page i).take LEAF_NODE_CELL_SIZE
  let cj := (leaf_node_cell page j).take LEAF_NODE_CELL_SIZE
  writeAt (writeAt page (LEAF_NODE_HEADER_SIZE + i * LEAF_NODE_CELL_SIZE) cj)
    (LEAF_NODE_HEADER_SIZE + j * LEAF_NODE_CELL_SIZE) ci

/-- The shift loop of `Cursor::insert` over the (reversed) index range:
each iteration converts `leaf_node_cell(i)` and the cell slice at
`cell_num` to `[u8; LEAF_NODE_CELL_SIZE]` — failing with `BadPageSize`
when a slice's length is not exactly `LEAF_NODE_CELL_SIZE` — and swaps
them. -/
def insert_shift_loop (cell_num : Nat) : List Nat → List Nat → Except TableError (List Nat)
  | page, [] => .ok page
  | page, i :: rest =>
    if (leaf_node_cell page i).length = LEAF_NODE_CELL_SIZE then
      if (leaf_node_cell page cell_num).length = LEAF_NODE_CELL_SIZE then
        insert_shift_loop cell_num (swapCells page i cell_num) rest
      else .error .BadPageSize
    else .error .BadPageSize

/-- `Cursor::insert` of `table.rs`: read `num_cells`; fail with
`SplitNotImplemented` when it exceeds `LEAF_NODE_MAX_CELLS`; when inserting
before existing cells run the swap loop over `(cell_num..num_cells).rev()`;
then return `Ok(())`.  Note the source never writes `key` or `value` into
the page and never increments `num_cells`. -/
def cursor_insert (page : List Nat) (cell_num key : Nat) (value : List Nat) :
    Except TableError (List Nat) :=
  let num_cells := leaf_node_num_cells page
  if num_cells > LEAF_NODE_MAX_CELLS then .error .SplitNotImplemented
  else if cell_num < num_cells then
    insert_shift_loop cell_num page (List.range' cell_num (num_cells - cell_num)).reverse
  else .ok page

/-- A cursor over the root leaf: `table.rs`'s `Cursor` with the mutable
table borrow narrowed to the root page's bytes (`page_num` is invariantly
the root, page 0). -/
structure CursorSt where
  page : List Nat
  cell_num : Nat
  end_of_table : Bool

/-- `Table::start`. -/
def tableStart (page : List Nat) : CursorSt :=
  { page := page, cell_num := 0, end_of_table := leaf_node_num_cells page == 0 }

/-- `Table::end`. -/
def tableEnd (page : List Nat) : CursorSt :=
  { page := page, cell_num := leaf_node_num_cells page, end_of_table := true }

/-- The three cursor operations of `table.rs`. -/
inductive CursorOp
  | value
  | advance
  | insert (key : Nat) (val : List Nat)

/-- One cursor operation.  `value` only reads; `advance` increments
`cell_num` and sets `end_of_table` once `cell_num ≥ num_cells`; `insert`
runs `Cursor::insert`, keeping the state unchanged when it errors. -/
def stepOp (c : CursorSt) : CursorOp → CursorSt
  | .value => c
  | .advance =>
    let num_cells := leaf_node_num_cells c.page
    let cell_num := c.cell_num + 1
    { c with cell_num := cell_num
             end_of_table := if cell_num ≥ num_cells then true else c.end_of_table }
  | .insert key val =>
    match cursor_insert c.page c.cell_num key val with
    | .ok p => { c with page := p }
    | .error _ => c

def runOps (c : CursorSt) : List CursorOp → CursorSt
  | [] => c
  | op :: ops => runOps (stepOp c op) ops

/-- The discipline the select loop follows: `advance` is only invoked while
`end_of_table` is false. -/
def advanceOnlyBeforeEnd : CursorSt → List CursorOp → Prop
  | _, [] => True
  | c, op :: ops =>
    (op = .advance → c.end_of_table = false) ∧ advanceOnlyBeforeEnd (stepOp c op) ops

/-- The cursor position invariant of the claim. -/
def cursorInv (c : CursorSt) : Prop :=
  c.cell_num ≤ leaf_node_num_cells c.page ∧
    (c.end_of_table = true ↔ c.cell_num = leaf_node_num_cells c.page)

end BtreeDb

namespace BtreeDb

/-- In a real 4096-byte page no cell suffix has length exactly
`LEAF_NODE_CELL_SIZE`, so the shift loop's slice-to-array conversion fails
on its first iteration; consequently `Cursor::insert` can only return `Ok`
through the branch that does not touch the page at all. -/
theorem cursor_insert_ok_eq (page : List Nat) (cn k : Nat) (v : List Nat)
    (hlen : page.length = 4096) (p' : List Nat)
    (h : cursor_insert page cn k v = .ok p') : p' = page := by
  unfold cursor_insert at h
  by_cases h1 : leaf_node_num_cells page > LEAF_NODE_MAX_CELLS
  · rw [if_pos h1] at h
    cases h
  · rw [if_neg h1] at h
    by_cases h2 : cn < leaf_node_num_cells page
    · exfalso
      rw [if_pos h2] at h
      rw [LEAF_NODE_MAX_CELLS_eq] at h1
      have hk : leaf_node_num_cells page - cn = (leaf_node_num_cells page - cn - 1) + 1 := by
        omega
      rw [hk, List.range'_concat] at h
      rw [List.reverse_append, List.reverse_singleton, List.singleton_append] at h
      unfold insert_shift_loop at h
      rw [if_neg ?hcell] at h
      · cases h
      case hcell =>
        unfold leaf_node_cell
        rw [List.length_drop, hlen]
        rw [show LEAF_NODE_HEADER_SIZE = 10 from rfl, LEAF_NODE_CELL_SIZE_eq]
        omega
    · rw [if_neg h2] at h
      exact (Except.ok.inj h).symm

theorem stepOp_preserves (c : CursorSt) (op : CursorOp)
    (hlen : c.page.length = 4096) (hinv : cursorInv c)
    (hadv : op = .advance → c.end_of_table = false) :
    cursorInv (stepOp c op) ∧ (stepOp c op).page.length = 4096 := by
  cases op with
  | value => exact ⟨hinv, hlen⟩
  | advance =>
    have hf : c.end_of_table = false := hadv rfl
    obtain ⟨hle, hiff⟩ := hinv
    have hne : c.cell_num ≠ leaf_node_num_cells c.page := by
      intro he
      rw [hiff.mpr he] at hf
      cases hf
    refine ⟨?_, hlen⟩
    unfold stepOp cursorInv
    dsimp only
    constructor
    · omega
    · by_cases hc2 : leaf_node_num_cells c.page ≤ c.cell_num + 1
      · rw [if_pos hc2]
        constructor
        · intro _
          omega
        · intro _
          rfl
      · rw [if_neg hc2]
        rw [hf]
        constructor
        · intro hff
          cases hff
        · intro he
          omega
  | insert k v =>
    cases heq : cursor_insert c.page c.cell_num k v with
    | ok p =>
      have hp : p = c.page := cursor_insert_ok_eq c.page c.cell_num k v hlen p heq
      subst hp
      have hstep : stepOp c (.insert k v) = c := by
        simp only [stepOp]
        rw [heq]
      rw [hstep]
      exact ⟨hinv, hlen⟩
    | error e =>
      have hstep : stepOp c (.insert k v) = c := by
        simp only [stepOp]
        rw [heq]
      rw [hstep]
      exact ⟨hinv, hlen⟩

theorem runOps_inv (ops : List CursorOp) : ∀ (c : CursorSt), c.page.length = 4096 →
    cursorInv c → advanceOnlyBeforeEnd c ops → cursorInv (runOps c ops) := by
  induction ops with
  | nil =>
    intro c _ hinv _
    exact hinv
  | cons op ops ih =>
    intro c hlen hinv hops
    obtain ⟨hadv, hops'⟩ := hops
    obtain ⟨hinv', hlen'⟩ := stepOp_preserves c op hlen hinv hadv
    exact ih (stepOp c op) hlen' hinv' hops'

end BtreeDb

open BtreeDb in
/-- C9 (amended): a cursor obtained from `start()` or `end()` on the root
leaf satisfies `cell_num ≤ num_cells` — with `cell_num = num_cells` exactly
when the cursor reports end-of-table — and every sequence of `value`,
`advance` and `insert` operations preserves this, provided `advance` is
only applied while `end_of_table` is false (the discipline the select loop
follows).  An unguarded `advance` at end-of-table pushes `cell_num` to
`num_cells + 1`. -/
theorem c9_cursor_position_invariant (page : List Nat)
    (hlen : page.length = MainDb.PAGE_SIZE) (c0 : CursorSt)
    (h0 : c0 = tableStart page ∨ c0 = tableEnd page)
    (ops : List CursorOp) (hops : advanceOnlyBeforeEnd c0 ops) :
    cursorInv (runOps c0 ops) := by
  rw [MainDb.PAGE_SIZE_eq] at hlen
  have hinv0 : cursorInv c0 := by
    rcases h0 with rfl | rfl
    · constructor
      · exact Nat.zero_le _
      · show (leaf_node_num_cells page == 0) = true ↔ 0 = leaf_node_num_cells page
        rw [beq_iff_eq]
        exact eq_comm
    · exact ⟨Nat.le_refl _, by simp [tableEnd]⟩
  have hlen0 : c0.page.length = 4096 := by
    rcases h0 with rfl | rfl <;> exact hlen
  exact runOps_inv ops c0 hlen0 hinv0 hops

open BtreeDb in
/-- Witness for C9: a start cursor on an empty root leaf, then a read and
an (attempted) insert. -/
theorem c9_cursor_position_invariant_witness :
    cursorInv (runOps (tableStart (List.replicate 4096 0))
      [CursorOp.value, CursorOp.insert 1 []]) :=
  c9_cursor_position_invariant _
    (by rw [List.length_replicate, MainDb.PAGE_SIZE_eq]) _ (Or.inl rfl) _
    (by
      refine ⟨?_, ?_, trivial⟩
      · intro h
        exact absurd h (by simp)
      · intro h
        exact absurd h (by simp))

open BtreeDb in
/-- Counterexample to C9 as stated: advancing a start cursor on an empty
leaf (which is already at end-of-table) drives `cell_num` to 1 while
`num_cells` is 0, violating `cell_num ≤ num_cells`. -/
theorem c9_counterexample :
    (runOps (tableStart (List.replicate 4096 0)) [CursorOp.advance]).cell_num = 1 ∧
    leaf_node_num_cells
      (runOps (tableStart (List.replicate 4096 0)) [CursorOp.advance]).page = 0 ∧
    ¬ cursorInv (runOps (tableStart (List.replicate 4096 0)) [CursorOp.advance]) := by
  refine ⟨rfl, rfl, ?_⟩
  intro hinv
  obtain ⟨hle, _⟩ := hinv
  rw [show (runOps (tableStart (List.replicate 4096 0)) [CursorOp.advance]).cell_num
      = 1 from rfl] at hle
  rw [show leaf_node_num_cells
      (runOps (tableStart (List.replicate 4096 0)) [CursorOp.advance]).page
      = 0 from rfl] at hle
  omega

open BtreeDb in
/-- C5 (code bug): `Cursor::insert` never writes the key, never copies the
value bytes and never increments `num_cells`.  On an empty leaf with the
cursor at cell 0 it returns `Ok` leaving the page untouched (`num_cells`
still 0); and when `cell_num < num_cells` the shift loop immediately fails
with `BadPageSize`, because `leaf_node_cell` returns the whole page suffix,
whose length (4086 - 295·i) is never exactly `LEAF_NODE_CELL_SIZE`. -/
theorem c5_cursor_insert_is_stub :
    cursor_insert (List.replicate 4096 0) 0 1 (List.replicate 291 7)
      = .ok (List.replicate 4096 0) ∧
    leaf_node_num_cells (List.replicate 4096 0) = 0 ∧
    cursor_insert (writeAt (List.replicate 4096 0) 6 [2, 0, 0, 0]) 0 5
        (List.replicate 291 7)
      = .error .BadPageSize := by
  refine ⟨rfl, rfl, ?_⟩
  have hpage : writeAt (List.replicate 4096 0) 6 [2, 0, 0, 0]
      = List.replicate 6 0 ++ ([2, 0, 0, 0] ++ List.replicate 4086 0) := by
    unfold writeAt
    rw [List.take_replicate, List.drop_replicate, List.append_assoc]
    rw [show min 6 4096 = 6 from rfl]
    rw [show 4096 - (6 + [2, 0, 0, 0].length) = 4086 from rfl]
  have hplen : (writeAt (List.replicate 4096 0) 6 [2, 0, 0, 0]).length = 4096 := by
    rw [hpage]
    simp only [List.length_append, List.length_replicate, List.length_cons,
      List.length_nil]
  have hnc : leaf_node_num_cells (writeAt (List.replicate 4096 0) 6 [2, 0, 0, 0]) = 2 := by
    unfold leaf_node_num_cells
    rw [hpage]
    rw [show LEAF_NODE_NUM_CELLS_OFFSET = (List.replicate 6 (0 : Nat)).length from by
      rw [List.length_replicate]
      rfl]
    rw [List.drop_left]
    rw [show (4 : Nat) = ([2, 0, 0, 0] : List Nat).length from rfl, List.take_left]
    rfl
  simp only [cursor_insert]
  rw [hnc]
  rw [if_neg (by rw [LEAF_NODE_MAX_CELLS_eq]; omega)]
  rw [if_pos (by omega)]
  rw [show List.range' 0 (2 - 0) = [0, 1] from rfl]
  rw [show ([0, 1] : List Nat).reverse = [1, 0] from rfl]
  unfold insert_shift_loop
  rw [if_neg ?hcell]
  case hcell =>
    unfold leaf_node_cell
    rw [List.length_drop, hplen]
    rw [show LEAF_NODE_HEADER_SIZE = 10 from rfl, LEAF_NODE_CELL_SIZE_eq]
    omega

open BtreeDb in
/-- C7 (code bug): `leaf_node_key` slices **32** bytes from the start of the
cell and feeds them to a `[u8; 4]` conversion, which therefore fails (the
source `unwrap`s, i.e. panics) for every page and cell index — here at the
all-zero root leaf, cell 0, where the claim instead promises the u32 LE of
the first 4 bytes. -/
theorem c7_leaf_node_key_conversion_fails :
    leaf_node_key (List.replicate 4096 0) 0 = none ∧
    ((leaf_node_cell (List.replicate 4096 0) 0).take 32).length = 32 :=
  ⟨rfl, rfl⟩

namespace MainDb

/-- `str::split(' ')` over the input bytes (space = 32): consecutive
separators produce empty tokens, and the empty input yields `[[]]`,
matching Rust's iterator. -/
def splitB : List Nat → List (List Nat)
  | [] => [[]]
  | b :: rest =>
    if b = 32 then [] :: splitB rest
    else
      match splitB rest with
      | [] => [[b]]
      | t :: ts => (b :: t) :: ts

/-- The byte string `"insert"`. -/
def insertKeyword : List Nat := [105, 110, 115, 101, 114, 116]

/-- The byte string `"select"`. -/
def selectKeyword : List Nat := [115, 101, 108, 101, 99, 116]

def parseDigitsAux (acc : Nat) : List Nat → Option Nat
  | [] => some acc
  | b :: rest =>
    if 48 ≤ b ∧ b ≤ 57 then parseDigitsAux (acc * 10 + (b - 48)) rest else none

/-- `str::parse::<u32>`: an optional leading `+`, then one or more ASCII
digits, rejecting values that overflow a `u32` (and hence any `-`). -/
def parseU32 (bs : List Nat) : Option Nat :=
  let core := match bs with
    | 43 :: rest => rest
    | _ => bs
  match core with
  | [] => none
  | _ :: _ =>
    match parseDigitsAux 0 core with
    | none => none
    | some v => if v < 4294967296 then some v else none

/-- `prepare_statement`: recognize the `insert` prefix, split on spaces,
take the second, third and fourth tokens as id, username and email
(`parts.nth(1)`, `next()`, `next()`), parse the id, check the field
widths.  Tokens after the fourth are never consulted. -/
def prepare_statement (original_input : List Nat) : Except StatementError Statement :=
  if insertKeyword.isPrefixOf original_input then
    let parts := splitB original_input
    match parts[1]?, parts[2]?, parts[3]? with
    | some id, some username, some email =>
      match parseU32 id with
      | none => .error .InvalidId
      | some idv =>
        if username.length > USERNAME_SIZE ∨ email.length > EMAIL_SIZE then
          .error .TooLong
        else .ok (.Insert ⟨idv, username, email⟩)
    | _, _, _ => .error .Sql
  else if selectKeyword.isPrefixOf original_input then .ok .Select
  else .error .Sql

/-- Rebuild an input line from space-free tokens: the inverse image the C10
claim quantifies over (`"insert <id> <username> <email> <extra...>"`). -/
def joinTokens : List (List Nat) → List Nat
  | [] => []
  | [t] => t
  | t :: t' :: ts => t ++ 32 :: joinTokens (t' :: ts)

theorem splitB_no_sep (tok : List Nat) (h : ¬ 32 ∈ tok) : splitB tok = [tok] := by
  induction tok with
  | nil => rfl
  | cons b t ih =>
    have hb : ¬ b = 32 := by
      intro hb
      exact h (by rw [hb]; exact List.mem_cons_self _ _)
    have ht : ¬ 32 ∈ t := fun hm => h (List.mem_cons_of_mem _ hm)
    show splitB (b :: t) = [b :: t]
    simp only [splitB]
    rw [if_neg hb, ih ht]

theorem splitB_head (tok rest : List Nat) (h : ¬ 32 ∈ tok) :
    splitB (tok ++ 32 :: rest) = tok :: splitB rest := by
  induction tok with
  | nil =>
    show splitB (32 :: rest) = [] :: splitB rest
    simp only [splitB]
    rw [if_pos trivial]
  | cons b t ih =>
    have hb : ¬ b = 32 := by
      intro hb
      exact h (by rw [hb]; exact List.mem_cons_self _ _)
    have ht : ¬ 32 ∈ t := fun hm => h (List.mem_cons_of_mem _ hm)
    show splitB (b :: (t ++ 32 :: rest)) = (b :: t) :: splitB rest
    simp only [splitB]
    rw [if_neg hb, ih ht]

theorem splitB_joinTokens_cons (a : List Nat) (b : List Nat) (ts : List (List Nat))
    (ha : ¬ 32 ∈ a) :
    splitB (joinTokens (a :: b :: ts)) = a :: splitB (joinTokens (b :: ts)) := by
  show splitB (a ++ 32 :: joinTokens (b :: ts)) = _
  rw [splitB_head _ _ ha]

theorem isPrefixOf_append (l r : List Nat) : l.isPrefixOf (l ++ r) = true := by
  induction l with
  | nil => simp [List.isPrefixOf]
  | cons b t ih => simpa [List.isPrefixOf] using ih

end MainDb

open MainDb in
/-- C10: an input of the form `insert <id> <username> <email> <extra...>`
(space-free tokens) with a parseable id and in-range field widths is
accepted, the statement is built from the second, third and fourth tokens
only, and any extra trailing tokens are silently ignored. -/
theorem c10_parser_ignores_extra_tokens (idTok u e : List Nat)
    (extras : List (List Nat)) (n : Nat)
    (hid : ¬ 32 ∈ idTok) (hu : ¬ 32 ∈ u) (he : ¬ 32 ∈ e)
    (hparse : parseU32 idTok = some n)
    (hul : u.length ≤ USERNAME_SIZE) (hel : e.length ≤ EMAIL_SIZE) :
    prepare_statement (joinTokens ([insertKeyword, idTok, u, e] ++ extras))
      = .ok (.Insert ⟨n, u, e⟩) := by
  have hins : ¬ 32 ∈ insertKeyword := by decide
  have hpre : insertKeyword.isPrefixOf
      (joinTokens ([insertKeyword, idTok, u, e] ++ extras)) = true := by
    show insertKeyword.isPrefixOf
      (insertKeyword ++ 32 :: joinTokens ([idTok, u, e] ++ extras)) = true
    exact isPrefixOf_append _ _
  have hsplit : ∃ tail, splitB (joinTokens ([insertKeyword, idTok, u, e] ++ extras))
      = insertKeyword :: idTok :: u :: e :: tail := by
    rw [show ([insertKeyword, idTok, u, e] ++ extras)
        = insertKeyword :: idTok :: u :: e :: extras from rfl]
    rw [splitB_joinTokens_cons _ _ _ hins, splitB_joinTokens_cons _ _ _ hid,
      splitB_joinTokens_cons _ _ _ hu]
    cases extras with
    | nil =>
      rw [show joinTokens [e] = e from rfl, splitB_no_sep e he]
      exact ⟨[], rfl⟩
    | cons x xs =>
      rw [splitB_joinTokens_cons _ _ _ he]
      exact ⟨splitB (joinTokens (x :: xs)), rfl⟩
  obtain ⟨tail, hsp⟩ := hsplit
  unfold prepare_statement
  rw [if_pos hpre, hsp]
  simp only [List.getElem?_cons_succ, List.getElem?_cons_zero]
  rw [hparse]
  dsimp only
  rw [if_neg ?hlenchk]
  case hlenchk =>
    rintro (hc | hc)
    · exact absurd hul (by omega)
    · exact absurd hel (by omega)

open MainDb in
/-- Witness for C10: `insert 1 a b x` parses to `Insert (1, "a", "b")`,
ignoring the extra token `x`. -/
theorem c10_parser_ignores_extra_tokens_witness :
    prepare_statement (joinTokens ([insertKeyword, [49], [97], [98]] ++ [[120]]))
      = .ok (.Insert ⟨1, [97], [98]⟩) :=
  c10_parser_ignores_extra_tokens [49] [97] [98] [[120]] 1
    (by decide) (by decide) (by decide) (by decide) (by decide) (by decide)
